import Mathlib

/-!
Verification development for the Animation-Builder repository.

The file embeds, in a shallow way, the parts of the source that the
checked properties talk about:

* the command capture sandbox and the staggered animation scheduler of
  `components/SketchCanvas.tsx` (the `runAnimation` function: the proxied
  rough.js methods, `drawArrow`, `drawCurve`, `drawText`, the command
  queue, the stagger timeouts, the per-command try/catch inside
  `requestAnimationFrame`, and the cancellation paths);
* the audio cache and loader plus the export orchestrator of `App.tsx`
  (`getAudioKey`, `ensureAudioLoaded`, `playAudioForStep`,
  `handleExportVideo` with its audio preparation loop and the
  `playExportStep` playback chain);
* the history storage module (`getHistory`, `saveHistoryItem`,
  `deleteHistoryItem`).

Author-supplied step code is arbitrary JavaScript whose only observable
effect on the capture sandbox is the sequence of primitive invocations it
performs (plus a possible synchronous throw), so step code is embedded as
the list of those invocations interleaved with an optional throw.  The
drawing backend (rough.js, the 2d context) is external to the repository,
so rendering one captured command is abstracted by the command it records,
and a command that throws when finally drawn is given by a predicate on
commands, mirroring the fact that the closures are opaque to the
scheduler.
-/

namespace AnimationBuilder

/-- A JavaScript argument value as captured by the proxy: the primitives
receive numbers and strings (option bags are flattened into named
values). -/
inductive JsVal where
  | num (n : Int)
  | str (s : String)
deriving DecidableEq, Repr

/-- One primitive invocation together with the arguments it was called
with.  These are the four instrumented entry points of `runAnimation`:
a method call on the proxied rough.js canvas, `drawArrow`, `drawCurve`
and `drawText`. -/
inductive PrimCall where
  | rcMethod (method : String) (args : List JsVal)
  | arrow (x1 y1 x2 y2 : Int) (opts : List (String × JsVal))
  | curve (x1 y1 x2 y2 : Int) (off : Int) (opts : List (String × JsVal))
  | text (s : String) (x y : Int) (opts : List (String × JsVal))
deriving DecidableEq, Repr

/-- A captured draw command: a zero-argument closure that closes exactly
over the primitive invocation and its arguments, so it is identified with
that invocation record. -/
abbrev DrawCommand := PrimCall

/-- One observable action of author-supplied step code while it runs
inside the capture sandbox: either an invocation of an instrumented
primitive, or a synchronous throw (syntax error or runtime error). -/
inductive StepAction where
  | call (c : PrimCall)
  | throwErr
deriving DecidableEq, Repr

/-- Author-supplied step code, embedded as the sequence of observable
actions it performs against the instrumented primitives. -/
abbrev StepCode := List StepAction

/-- Execution of step code against the instrumented primitives
(`drawFunction(rcProxy, ctx, width, height, drawArrow, drawCurve,
drawText)` in the source): every primitive invocation appends one closure
to the command queue via `addToQueue`; a throw aborts execution, and the
error carries the queue as built so far, because the local `commandQueue`
array keeps the commands pushed before the throw. -/
def execCode : StepCode → List DrawCommand → Except (List DrawCommand) (List DrawCommand)
  | [], queue => Except.ok queue
  | StepAction.call c :: rest, queue => execCode rest (queue ++ [c])
  | StepAction.throwErr :: _, queue => Except.error queue

/-- The primitive invocations performed by a piece of step code, in
program order. -/
def primCalls (code : StepCode) : List PrimCall :=
  code.filterMap (fun a =>
    match a with
    | StepAction.call c => some c
    | StepAction.throwErr => none)

theorem execCode_ok_append (code : StepCode) :
    ∀ queue q, execCode code queue = Except.ok q → q = queue ++ primCalls code := by
  induction code with
  | nil =>
      intro queue q h
      simp [execCode] at h
      simp [primCalls, h]
  | cons a rest ih =>
      intro queue q h
      cases a with
      | call c =>
          have := ih (queue ++ [c]) q (by simpa [execCode] using h)
          simp [primCalls, this]
      | throwErr =>
          simp [execCode] at h

theorem execCode_throws_iff (code : StepCode) :
    ∀ queue, (∃ q, execCode code queue = Except.error q) ↔ StepAction.throwErr ∈ code := by
  induction code with
  | nil =>
      intro queue
      simp [execCode]
  | cons a rest ih =>
      intro queue
      cases a with
      | call c => simpa [execCode] using ih (queue ++ [c])
      | throwErr => simp [execCode]

/-- Claim C1: for every step code whose execution completes without
throwing, the command queue captured by running it against the
instrumented primitives contains exactly one DrawCommand per primitive
invocation, and the captured commands (each closing over its own
arguments) appear in exactly the order in which the code invoked the
primitives. -/
theorem capture_list_mirrors_primitive_calls (code : StepCode) (q : List DrawCommand)
    (h : execCode code [] = Except.ok q) :
    q = primCalls code ∧ q.length = (primCalls code).length := by
  have hq := execCode_ok_append code [] q h
  simp at hq
  exact ⟨hq, by rw [hq]⟩

theorem capture_list_mirrors_primitive_calls_witness :
    execCode [StepAction.call (PrimCall.rcMethod "circle" [JsVal.num 100, JsVal.num 100, JsVal.num 50]),
              StepAction.call (PrimCall.text "hello" 400 300 [])] [] =
      Except.ok [PrimCall.rcMethod "circle" [JsVal.num 100, JsVal.num 100, JsVal.num 50],
                 PrimCall.text "hello" 400 300 []] ∧
    [PrimCall.rcMethod "circle" [JsVal.num 100, JsVal.num 100, JsVal.num 50],
     PrimCall.text "hello" 400 300 []] =
      primCalls [StepAction.call (PrimCall.rcMethod "circle" [JsVal.num 100, JsVal.num 100, JsVal.num 50]),
                 StepAction.call (PrimCall.text "hello" 400 300 [])] :=
  ⟨rfl,
   (capture_list_mirrors_primitive_calls
      [StepAction.call (PrimCall.rcMethod "circle" [JsVal.num 100, JsVal.num 100, JsVal.num 50]),
       StepAction.call (PrimCall.text "hello" 400 300 [])]
      [PrimCall.rcMethod "circle" [JsVal.num 100, JsVal.num 100, JsVal.num 50],
       PrimCall.text "hello" 400 300 []] rfl).1⟩

/-- One pending stagger timeout: the id returned by `setTimeout`, the
absolute fire time (`index * STAGGER_DELAY` from the invocation of
`runAnimation`), and the captured command the callback will hand to
`requestAnimationFrame`. -/
structure Timer where
  id : Nat
  fireAt : Nat
  cmd : DrawCommand
deriving DecidableEq, Repr

/-- The state of one `SketchCanvas` instance and of the platform timer
facilities it uses.

* `timers` is the set of pending `setTimeout` callbacks, in scheduling
  order (the stagger delays grow by 200ms per index, so scheduling order
  is also due order);
* `timeoutsRef` models `timeoutsRef.current`, the ids the component
  stores so it can cancel them;
* `rafQueue` holds commands whose timeout already fired and whose
  `requestAnimationFrame` callback has not yet run;
* `surface` is the picture drawn so far, as the sequence of primitive
  invocations successfully performed on the canvas (the white fill at the
  start of `runAnimation` resets it);
* `executedAll` records every command invocation, including ones that
  threw and were caught;
* `errorBadge` models the `error` state that shows the red badge;
* `nextId` is the fresh timer id counter. -/
structure CanvasState where
  timers : List Timer
  timeoutsRef : List Nat
  rafQueue : List DrawCommand
  surface : List PrimCall
  executedAll : List DrawCommand
  errorBadge : Bool
  nextId : Nat
deriving DecidableEq, Repr

def initState : CanvasState :=
  { timers := [], timeoutsRef := [], rafQueue := [], surface := [],
    executedAll := [], errorBadge := false, nextId := 0 }

/-- The fallback command the catch branch of `runAnimation` builds by
calling the queueing `drawText` helper with the text
"Oops! Drawing Error." at (width/2, height/2) with color "#ef4444" and
size 40. -/
def fallbackCmd (w h : Int) : DrawCommand :=
  PrimCall.text "Oops! Drawing Error." (w / 2) (h / 2)
    [("color", JsVal.str "#ef4444"), ("size", JsVal.num 40)]

/-- Schedule the captured queue: command `k` gets a fresh timer id and
fire time `k * 200` (STAGGER_DELAY = 200) relative to this run. -/
def scheduleFrom (idStart t : Nat) : List DrawCommand → List Timer
  | [] => []
  | c :: rest => { id := idStart, fireAt := t, cmd := c } :: scheduleFrom (idStart + 1) (t + 200) rest

/-- The `runAnimation` function of `SketchCanvas`.  It fills the surface
with opaque white, cancels every timeout whose id is stored in
`timeoutsRef` and empties that ref, then executes the step code against
the instrumented primitives.  On success it schedules one timeout per
captured command at the stagger interval and stores the new ids; on a
throw it sets the error badge and calls the queueing `drawText`, which
appends the fallback command to the local command queue, after the
scheduling loop inside the try block has already been skipped.  The
function returns the new state together with the final contents of the
local `commandQueue`, and it returns in both branches: the throw is
caught, so no exception reaches the caller.  Pending
`requestAnimationFrame` callbacks are untouched: the component never
cancels them. -/
def runAnimation (w h : Int) (code : StepCode) (s : CanvasState) :
    CanvasState × List DrawCommand :=
  let timersCleared := s.timers.filter (fun tm => ¬ tm.id ∈ s.timeoutsRef)
  match execCode code [] with
  | Except.ok q =>
      let ts := scheduleFrom s.nextId 0 q
      ({ s with surface := [], timers := timersCleared ++ ts,
                timeoutsRef := ts.map Timer.id,
                errorBadge := false,
                nextId := s.nextId + q.length }, q)
  | Except.error part =>
      ({ s with surface := [], timers := timersCleared, timeoutsRef := [],
                errorBadge := true }, part ++ [fallbackCmd w h])

/-- The events the platform event loop can deliver to this component:
the due stagger timeout fires (handing its command to
`requestAnimationFrame`), an animation frame runs (flushing the queued
callbacks), or the component cleanup runs `clearTimeout` on every stored
id (the unmount path of the effect). -/
inductive SchedEvent where
  | fireDue
  | frame
  | cancelAll
deriving DecidableEq, Repr

/-- Execute one command inside the frame callback: the invocation is
wrapped in try/catch, so a throwing command (`fails cmd = true`) is only
logged and leaves the surface unchanged, while a successful one draws its
primitive.  Either way the invocation itself is recorded. -/
def execOne (fails : DrawCommand → Bool) (s : CanvasState) (cmd : DrawCommand) : CanvasState :=
  { s with executedAll := s.executedAll ++ [cmd],
           surface := if fails cmd then s.surface else s.surface ++ [cmd] }

/-- One event-loop step.  `fireDue` pops the due timeout (the head:
stagger delays are strictly increasing, so scheduling order is due order)
and enqueues its command for the next animation frame; `frame` runs every
queued callback in order, each in its own try/catch; `cancelAll` runs
`clearTimeout` on every id stored in `timeoutsRef` (clearing an already
fired id is a no-op, and pending animation-frame callbacks are not
cancelable this way). -/
def stepEvent (fails : DrawCommand → Bool) : SchedEvent → CanvasState → CanvasState
  | SchedEvent.fireDue, s =>
      match s.timers with
      | [] => s
      | tm :: rest => { s with timers := rest, rafQueue := s.rafQueue ++ [tm.cmd] }
  | SchedEvent.frame, s =>
      s.rafQueue.foldl (execOne fails) { s with rafQueue := [] }
  | SchedEvent.cancelAll, s =>
      { s with timers := s.timers.filter (fun tm => ¬ tm.id ∈ s.timeoutsRef) }

/-- Run a sequence of event-loop steps. -/
def runEvents (fails : DrawCommand → Bool) (evs : List SchedEvent) (s : CanvasState) : CanvasState :=
  evs.foldl (fun st e => stepEvent fails e st) s

theorem scheduleFrom_length (q : List DrawCommand) :
    ∀ idStart t, (scheduleFrom idStart t q).length = q.length := by
  induction q with
  | nil => intro idStart t; simp [scheduleFrom]
  | cons c rest ih => intro idStart t; simp [scheduleFrom, ih]

theorem scheduleFrom_map_cmd (q : List DrawCommand) :
    ∀ idStart t, (scheduleFrom idStart t q).map Timer.cmd = q := by
  induction q with
  | nil => intro idStart t; simp [scheduleFrom]
  | cons c rest ih => intro idStart t; simp [scheduleFrom, ih]

theorem scheduleFrom_id_ge (q : List DrawCommand) :
    ∀ idStart t tm, tm ∈ scheduleFrom idStart t q → idStart ≤ tm.id := by
  induction q with
  | nil => intro idStart t tm h; simp [scheduleFrom] at h
  | cons c rest ih =>
      intro idStart t tm h
      simp [scheduleFrom] at h
      rcases h with h | h
      · simp [h]
      · exact le_trans (Nat.le_succ idStart) (ih (idStart + 1) (t + 200) tm h)

theorem foldl_execOne_fields (fails : DrawCommand → Bool) :
    ∀ (l : List DrawCommand) (s : CanvasState),
      (l.foldl (execOne fails) s).executedAll = s.executedAll ++ l ∧
      (l.foldl (execOne fails) s).rafQueue = s.rafQueue ∧
      (l.foldl (execOne fails) s).timers = s.timers := by
  intro l
  induction l with
  | nil => intro s; simp
  | cons c rest ih =>
      intro s
      have h := ih (execOne fails s c)
      simpa [execOne, List.append_assoc] using h

theorem frame_fields (fails : DrawCommand → Bool) (s : CanvasState) :
    (stepEvent fails SchedEvent.frame s).executedAll = s.executedAll ++ s.rafQueue ∧
    (stepEvent fails SchedEvent.frame s).rafQueue = [] ∧
    (stepEvent fails SchedEvent.frame s).timers = s.timers := by
  have h := foldl_execOne_fields fails s.rafQueue { s with rafQueue := [] }
  simpa [stepEvent] using h

/-- Once no timeout is pending, event-loop steps create no new pending
timeout, and every later command execution consumes one element of the
animation-frame queue: the sum of executed commands and queued callbacks
is constant. -/
theorem no_timers_invariant (fails : DrawCommand → Bool) :
    ∀ (evs : List SchedEvent) (s : CanvasState), s.timers = [] →
      (runEvents fails evs s).timers = [] ∧
      (runEvents fails evs s).executedAll.length + (runEvents fails evs s).rafQueue.length
        = s.executedAll.length + s.rafQueue.length ∧
      (s.rafQueue = [] →
        (runEvents fails evs s).executedAll = s.executedAll ∧
        (runEvents fails evs s).rafQueue = []) := by
  intro evs
  induction evs with
  | nil => intro s h; simp [runEvents, h]
  | cons e rest ih =>
      intro s h
      have hstep : runEvents fails (e :: rest) s = runEvents fails rest (stepEvent fails e s) := rfl
      cases e with
      | fireDue =>
          have hs : stepEvent fails SchedEvent.fireDue s = s := by
            simp [stepEvent, h]
          rw [hstep, hs]
          exact ih s h
      | frame =>
          have hf := frame_fields fails s
          have hrec := ih (stepEvent fails SchedEvent.frame s) (by rw [hf.2.2]; exact h)
          rw [hstep]
          refine ⟨hrec.1, ?_, ?_⟩
          · rw [hrec.2.1, hf.1, hf.2.1]
            simp [Nat.add_comm]
          · intro hraf
            have hq : (stepEvent fails SchedEvent.frame s).rafQueue = [] := hf.2.1
            have he : (stepEvent fails SchedEvent.frame s).executedAll = s.executedAll := by
              rw [hf.1, hraf]; simp
            have := hrec.2.2 hq
            exact ⟨by rw [this.1, he], this.2⟩
      | cancelAll =>
          have hs : (stepEvent fails SchedEvent.cancelAll s).timers = [] := by
            simp [stepEvent, h]
          have heq : stepEvent fails SchedEvent.cancelAll s =
              { s with timers := s.timers.filter (fun tm => ¬ tm.id ∈ s.timeoutsRef) } := rfl
          have hrec := ih (stepEvent fails SchedEvent.cancelAll s) hs
          rw [hstep]
          refine ⟨hrec.1, ?_, ?_⟩
          · rw [hrec.2.1, heq]
          · intro hraf
            have := hrec.2.2 (by rw [heq]; exact hraf)
            rw [heq] at this
            exact this

theorem cancelAll_clears (fails : DrawCommand → Bool) (s : CanvasState)
    (hinv : ∀ tm ∈ s.timers, tm.id ∈ s.timeoutsRef) :
    (stepEvent fails SchedEvent.cancelAll s).timers = [] := by
  simp only [stepEvent]
  rw [List.filter_eq_nil_iff]
  intro tm hm
  simpa using hinv tm hm

/-- Claim C2 evidence, at the failing input: step code that throws during
capture.  `runAnimation` returns normally (the throw is caught), the
error badge is set, and the catch branch appends the single fallback
command to the local command queue; but no timeout is scheduled (the
scheduling loop inside the try block was skipped), the stored timeout ids
are empty, and draining the event loop executes nothing and draws
nothing: the fallback error notice is never rendered, contrary to the
stated property. -/
theorem throwing_code_enqueues_fallback_but_never_renders_it :
    (runAnimation 800 600 [StepAction.throwErr] initState).2 = [fallbackCmd 800 600] ∧
    ((runAnimation 800 600 [StepAction.throwErr] initState).1).timers = [] ∧
    ((runAnimation 800 600 [StepAction.throwErr] initState).1).timeoutsRef = [] ∧
    ((runAnimation 800 600 [StepAction.throwErr] initState).1).errorBadge = true ∧
    (runEvents (fun _ => false)
        [SchedEvent.fireDue, SchedEvent.frame, SchedEvent.fireDue, SchedEvent.frame]
        ((runAnimation 800 600 [StepAction.throwErr] initState).1)).executedAll = [] ∧
    (runEvents (fun _ => false)
        [SchedEvent.fireDue, SchedEvent.frame, SchedEvent.fireDue, SchedEvent.frame]
        ((runAnimation 800 600 [StepAction.throwErr] initState).1)).surface = [] := by
  decide

/-- Claim C3 counterexample: one command is scheduled, its stagger
timeout fires (handing the command to `requestAnimationFrame`), then the
cleanup cancellation runs `clearTimeout` on every stored id, and then the
next animation frame arrives.  At the moment cancellation returns, no
command has executed and no timeout is pending, yet the frame callback
still executes the command of the cancelled replay: the count of command
executions after cancellation is 1, not 0. -/
theorem command_can_execute_after_cancellation :
    ((stepEvent (fun _ => false) SchedEvent.cancelAll
        (stepEvent (fun _ => false) SchedEvent.fireDue
          ((runAnimation 800 600 [StepAction.call (PrimCall.rcMethod "line" [])] initState).1))).timers = [] ∧
     (stepEvent (fun _ => false) SchedEvent.cancelAll
        (stepEvent (fun _ => false) SchedEvent.fireDue
          ((runAnimation 800 600 [StepAction.call (PrimCall.rcMethod "line" [])] initState).1))).executedAll = []) ∧
    (stepEvent (fun _ => false) SchedEvent.frame
       (stepEvent (fun _ => false) SchedEvent.cancelAll
         (stepEvent (fun _ => false) SchedEvent.fireDue
           ((runAnimation 800 600 [StepAction.call (PrimCall.rcMethod "line" [])] initState).1)))).executedAll
      = [PrimCall.rcMethod "line" []] := by
  decide

/-- Claim C3, amended: cancellation (cleanup of the stored timeout ids,
or a new `runAnimation` call) clears every pending stagger timeout of the
previous replay, so a command still waiting on its timeout never executes
afterwards; but a command whose timeout had already fired and whose
animation-frame callback was still queued when cancellation ran may still
execute.  The count of command executions after cancellation returns is
bounded by the length of the animation-frame queue at cancellation time,
and is 0 whenever that queue is empty. -/
theorem cancellation_clears_pending_timers_and_bounds_executions
    (fails : DrawCommand → Bool) (s : CanvasState) (evs : List SchedEvent)
    (w h : Int) (code : StepCode)
    (hinv : ∀ tm ∈ s.timers, tm.id ∈ s.timeoutsRef)
    (hfresh : ∀ a ∈ s.timeoutsRef, a < s.nextId) :
    (stepEvent fails SchedEvent.cancelAll s).timers = [] ∧
    (runEvents fails evs (stepEvent fails SchedEvent.cancelAll s)).executedAll.length
      ≤ s.executedAll.length + s.rafQueue.length ∧
    (s.rafQueue = [] →
      (runEvents fails evs (stepEvent fails SchedEvent.cancelAll s)).executedAll = s.executedAll) ∧
    (∀ tm ∈ ((runAnimation w h code s).1).timers, ¬ tm.id ∈ s.timeoutsRef) := by
  have hclear := cancelAll_clears fails s hinv
  have hafter := no_timers_invariant fails evs (stepEvent fails SchedEvent.cancelAll s) hclear
  have hfields : (stepEvent fails SchedEvent.cancelAll s).executedAll = s.executedAll ∧
      (stepEvent fails SchedEvent.cancelAll s).rafQueue = s.rafQueue := by
    constructor <;> rfl
  refine ⟨hclear, ?_, ?_, ?_⟩
  · have := hafter.2.1
    rw [hfields.1, hfields.2] at this
    omega
  · intro hraf
    have := hafter.2.2 (by rw [hfields.2]; exact hraf)
    rw [hfields.1] at this
    exact this.1
  · intro tm hm
    simp only [runAnimation] at hm
    cases hex : execCode code [] with
    | ok q =>
        rw [hex] at hm
        simp at hm
        rcases hm with hm | hm
        · exact hm.2
        · intro hmem
          have hid := scheduleFrom_id_ge q s.nextId 0 tm hm
          have := hfresh tm.id hmem
          omega
    | error part =>
        rw [hex] at hm
        simp at hm
        exact hm.2

theorem cancellation_clears_pending_timers_and_bounds_executions_witness :
    (stepEvent (fun _ => false) SchedEvent.cancelAll
      { timers := [{ id := 0, fireAt := 0, cmd := PrimCall.rcMethod "line" [] }],
        timeoutsRef := [0], rafQueue := [], surface := [], executedAll := [],
        errorBadge := false, nextId := 1 }).timers = [] ∧
    (runEvents (fun _ => false) [SchedEvent.fireDue, SchedEvent.frame]
      (stepEvent (fun _ => false) SchedEvent.cancelAll
        { timers := [{ id := 0, fireAt := 0, cmd := PrimCall.rcMethod "line" [] }],
          timeoutsRef := [0], rafQueue := [], surface := [], executedAll := [],
          errorBadge := false, nextId := 1 })).executedAll.length ≤ 0 + 0 :=
  ⟨(cancellation_clears_pending_timers_and_bounds_executions (fun _ => false)
      { timers := [{ id := 0, fireAt := 0, cmd := PrimCall.rcMethod "line" [] }],
        timeoutsRef := [0], rafQueue := [], surface := [], executedAll := [],
        errorBadge := false, nextId := 1 }
      [SchedEvent.fireDue, SchedEvent.frame] 800 600 []
      (by decide) (by decide)).1,
   (cancellation_clears_pending_timers_and_bounds_executions (fun _ => false)
      { timers := [{ id := 0, fireAt := 0, cmd := PrimCall.rcMethod "line" [] }],
        timeoutsRef := [0], rafQueue := [], surface := [], executedAll := [],
        errorBadge := false, nextId := 1 }
      [SchedEvent.fireDue, SchedEvent.frame] 800 600 []
      (by decide) (by decide)).2.1⟩

theorem fires_strip (fails : DrawCommand → Bool) :
    ∀ (ts : List Timer) (s : CanvasState), s.timers = ts →
      runEvents fails (List.replicate ts.length SchedEvent.fireDue) s =
        { s with timers := [], rafQueue := s.rafQueue ++ ts.map Timer.cmd } := by
  intro ts
  induction ts with
  | nil =>
      intro s h
      simp [runEvents]
      cases s
      simp at h
      simp [h]
  | cons tm rest ih =>
      intro s h
      have hstep : stepEvent fails SchedEvent.fireDue s =
          { s with timers := rest, rafQueue := s.rafQueue ++ [tm.cmd] } := by
        simp [stepEvent, h]
      have : runEvents fails (List.replicate (rest.length + 1) SchedEvent.fireDue) s =
          runEvents fails (List.replicate rest.length SchedEvent.fireDue)
            (stepEvent fails SchedEvent.fireDue s) := by
        simp [runEvents, List.replicate_succ]
      rw [List.length_cons, this, hstep,
        ih { s with timers := rest, rafQueue := s.rafQueue ++ [tm.cmd] } rfl]
      simp

theorem runEvents_append (fails : DrawCommand → Bool) (a b : List SchedEvent) (s : CanvasState) :
    runEvents fails (a ++ b) s = runEvents fails b (runEvents fails a s) := by
  simp [runEvents, List.foldl_append]

/-- Draining the event loop (every pending stagger timeout fires, then
one animation frame runs every queued callback) invokes every command of
the pending timers, in order, after the commands already queued for a
frame. -/
theorem drain_executes_all (fails : DrawCommand → Bool) (s : CanvasState) :
    (runEvents fails (List.replicate s.timers.length SchedEvent.fireDue ++ [SchedEvent.frame]) s).executedAll
      = s.executedAll ++ s.rafQueue ++ s.timers.map Timer.cmd := by
  rw [runEvents_append, fires_strip fails s.timers s rfl]
  have hframe := frame_fields fails
      { s with timers := [], rafQueue := s.rafQueue ++ s.timers.map Timer.cmd }
  have hrun : runEvents fails [SchedEvent.frame]
      { s with timers := [], rafQueue := s.rafQueue ++ s.timers.map Timer.cmd } =
      stepEvent fails SchedEvent.frame
      { s with timers := [], rafQueue := s.rafQueue ++ s.timers.map Timer.cmd } := rfl
  rw [hrun, hframe.1]
  simp [List.append_assoc]

/-- Claim C4: during replay of a captured command list, a command that
throws when finally executed is caught per-command; for every command
list and every failing command at position `i`, all commands at positions
after `i` are still dispatched and executed: draining the event loop
(every stagger timeout fires, then the animation frame runs every queued
callback, each inside its own try/catch) invokes every captured command,
in capture order, whatever the set of failing commands. -/
theorem failing_command_does_not_block_later_commands
    (fails : DrawCommand → Bool) (w h : Int) (code : StepCode) (q : List DrawCommand)
    (hok : execCode code [] = Except.ok q)
    (i j : Nat) (hi : i < q.length) (hj : j < q.length) (hij : i < j)
    (hfail : fails (q.get ⟨i, hi⟩) = true) :
    (runEvents fails (List.replicate q.length SchedEvent.fireDue ++ [SchedEvent.frame])
        ((runAnimation w h code initState).1)).executedAll = q := by
  have htimers : ((runAnimation w h code initState).1).timers = scheduleFrom 0 0 q := by
    simp [runAnimation, hok, initState]
  have hexec : ((runAnimation w h code initState).1).executedAll = [] := by
    simp [runAnimation, hok, initState]
  have hraf : ((runAnimation w h code initState).1).rafQueue = [] := by
    simp [runAnimation, hok, initState]
  have hlen : q.length = ((runAnimation w h code initState).1).timers.length := by
    rw [htimers, scheduleFrom_length]
  rw [hlen, drain_executes_all, htimers, hexec, hraf, scheduleFrom_map_cmd]
  simp

theorem failing_command_does_not_block_later_commands_witness :
    execCode [StepAction.call (PrimCall.rcMethod "line" []),
              StepAction.call (PrimCall.text "ok" 1 2 [])] [] =
      Except.ok [PrimCall.rcMethod "line" [], PrimCall.text "ok" 1 2 []] ∧
    (runEvents (fun c => c == PrimCall.rcMethod "line" [])
        (List.replicate 2 SchedEvent.fireDue ++ [SchedEvent.frame])
        ((runAnimation 800 600
            [StepAction.call (PrimCall.rcMethod "line" []),
             StepAction.call (PrimCall.text "ok" 1 2 [])] initState).1)).executedAll
      = [PrimCall.rcMethod "line" [], PrimCall.text "ok" 1 2 []] :=
  ⟨rfl,
   failing_command_does_not_block_later_commands
     (fun c => c == PrimCall.rcMethod "line" []) 800 600
     [StepAction.call (PrimCall.rcMethod "line" []),
      StepAction.call (PrimCall.text "ok" 1 2 [])]
     [PrimCall.rcMethod "line" [], PrimCall.text "ok" 1 2 []]
     rfl 0 1 (by decide) (by decide) (by decide) (by decide)⟩

/-! ## Audio cache and loader (`App.tsx`) -/

/-- A step as produced by the external planner (`types.ts`). -/
structure SketchStep where
  title : String
  description : String
  code : String
deriving DecidableEq, Repr

/-- A decoded playable audio buffer.  Decoding (`base64ToBytes`,
`pcmToAudioBuffer`) is external to the modelled core; the scheduler only
ever consults when playback of the buffer ends, so a buffer is identified
by its duration in milliseconds. -/
structure AudioBuffer where
  duration : Nat
deriving DecidableEq, Repr

/-- `Map.get(key)` of a JavaScript `Map`, on the association-list
embedding in which `Map.set` prepends. -/
def mapGet {α : Type} : List (String × α) → String → Option α
  | [], _ => none
  | (k, v) :: rest, key => if key = k then some v else mapGet rest key

/-- `Map.delete(key)` of a JavaScript `Map`: the key is no longer
present afterwards. -/
def mapDelete {α : Type} : List (String × α) → String → List (String × α)
  | [], _ => []
  | (k, v) :: rest, key =>
      if key = k then mapDelete rest key else (k, v) :: mapDelete rest key

/-- The JavaScript `String.prototype.trim()`: drop leading and trailing
whitespace.  (Defined by structural recursion over the character list so
that it evaluates on concrete strings.) -/
def jsTrim (s : String) : String :=
  String.mk (((s.data.dropWhile Char.isWhitespace).reverse.dropWhile Char.isWhitespace).reverse)

/-- `getAudioKey` of `App.tsx`: the content-derived cache identity,
joining the trimmed title and the trimmed description with a bar.  The
code field and the position of the step play no part. -/
def getAudioKey (step : SketchStep) : String :=
  jsTrim step.title ++ "|" ++ jsTrim step.description

/-- The text handed to `generateSpeech`: the raw title and description
joined by a period (not trimmed). -/
def speechText (step : SketchStep) : String :=
  step.title ++ ". " ++ step.description

/-- The audio-related state of the `App` component:

* `cache` models `audioCacheRef.current` (NarrationKey to decoded
  buffer);
* `pending` models `audioLoadingPromisesRef.current` (NarrationKey to
  the in-flight promise, identified by a fresh id);
* `quotaExceeded` models the `quotaExceeded` React state as stored: a
  `setQuotaExceeded` call updates it, but a closure created by an earlier
  render keeps the value it captured;
* `upstreamLog` records, in call order, the texts passed to the external
  `generateSpeech` synthesis service;
* `nextPromiseId` is the fresh promise id counter. -/
structure AudioState where
  cache : List (String × AudioBuffer)
  pending : List (String × Nat)
  quotaExceeded : Bool
  upstreamLog : List String
  nextPromiseId : Nat
deriving DecidableEq, Repr

/-- The value `ensureAudioLoaded` produces synchronously: it can throw
(quota already exceeded, or no step at that index), return the cached
buffer, return the promise already in flight for the key, or start a new
synthesis, registering a fresh promise after issuing the upstream call. -/
inductive EnsureResult where
  | thrown (msg : String)
  | cached (b : AudioBuffer)
  | joined (pid : Nat)
  | started (pid : Nat)
deriving DecidableEq, Repr

/-- The synchronous part of `ensureAudioLoaded` in `App.tsx` (everything
up to the first suspension of the inner async function; JavaScript is
single threaded, so this whole prefix is atomic).  `quotaAtCapture` is
the value of the `quotaExceeded` state captured by the `useCallback`
closure the caller holds: a caller created before the flag flipped keeps
seeing `false`.  Order of checks as in the source: quota, step lookup,
cache, in-flight promise, then generate (one upstream call, pending entry
registered). -/
def ensureAudioLoaded (quotaAtCapture : Bool) (steps : List SketchStep) (i : Nat)
    (st : AudioState) : EnsureResult × AudioState :=
  if quotaAtCapture then (EnsureResult.thrown "Quota exceeded", st)
  else
    match steps[i]? with
    | none => (EnsureResult.thrown "Step not found", st)
    | some step =>
        let key := getAudioKey step
        match mapGet st.cache key with
        | some b => (EnsureResult.cached b, st)
        | none =>
            match mapGet st.pending key with
            | some pid => (EnsureResult.joined pid, st)
            | none =>
                (EnsureResult.started st.nextPromiseId,
                 { st with upstreamLog := st.upstreamLog ++ [speechText step],
                           pending := (key, st.nextPromiseId) :: st.pending,
                           nextPromiseId := st.nextPromiseId + 1 })

/-- What the external synthesis can come back with: a decoded buffer, a
rate-limit failure (a 429), or any other failure. -/
inductive SynthOutcome where
  | ok (b : AudioBuffer)
  | fail429
  | failOther
deriving DecidableEq, Repr

/-- Completion of the in-flight synthesis for `key` (the rest of the
async function inside `ensureAudioLoaded`): on success the buffer is
stored in the cache; a 429 flips the sticky `quotaExceeded` state; in
every case the `finally` block removes the pending promise, so a failed
key can be retried later. -/
def settleSynthesis (key : String) (outcome : SynthOutcome) (st : AudioState) : AudioState :=
  match outcome with
  | SynthOutcome.ok b =>
      { st with cache := (key, b) :: st.cache, pending := mapDelete st.pending key }
  | SynthOutcome.fail429 =>
      { st with quotaExceeded := true, pending := mapDelete st.pending key }
  | SynthOutcome.failOther =>
      { st with pending := mapDelete st.pending key }

/-- A sequence of synchronous `ensureAudioLoaded` invocations (one per
caller), none of the in-flight promises settling in between. -/
def ensureSeq (quotaAtCapture : Bool) (steps : List SketchStep) :
    List Nat → AudioState → List EnsureResult × AudioState
  | [], st => ([], st)
  | j :: rest, st =>
      let r := ensureAudioLoaded quotaAtCapture steps j st
      let rs := ensureSeq quotaAtCapture steps rest r.2
      (r.1 :: rs.1, rs.2)

theorem ensureAudioLoaded_joined (steps : List SketchStep) (j : Nat) (s : SketchStep)
    (st : AudioState) (key : String) (pid : Nat)
    (hstep : steps[j]? = some s) (hkey : getAudioKey s = key)
    (hcache : mapGet st.cache key = none) (hpend : mapGet st.pending key = some pid) :
    ensureAudioLoaded false steps j st = (EnsureResult.joined pid, st) := by
  simp [ensureAudioLoaded, hstep, hkey, hcache, hpend]

/-- Claim C5: with the key of `step` neither cached nor in flight, `1 + N`
invocations of `ensureAudioLoaded` for steps mapping to the same
NarrationKey, made while the first invocation is still in flight, issue
exactly one upstream `generateSpeech` call (the log grows by one entry)
and every caller receives the same promise: the first one starts it, the
other N join it. -/
theorem concurrent_ensure_issues_single_upstream_call
    (steps : List SketchStep) (i : Nat) (step : SketchStep) (st : AudioState) (idxs : List Nat)
    (hstep : steps[i]? = some step)
    (hcache : mapGet st.cache (getAudioKey step) = none)
    (hpend : mapGet st.pending (getAudioKey step) = none)
    (hidxs : ∀ j ∈ idxs, ∃ s, steps[j]? = some s ∧ getAudioKey s = getAudioKey step) :
    ensureSeq false steps (i :: idxs) st =
      (EnsureResult.started st.nextPromiseId ::
         idxs.map (fun _ => EnsureResult.joined st.nextPromiseId),
       { st with upstreamLog := st.upstreamLog ++ [speechText step],
                 pending := (getAudioKey step, st.nextPromiseId) :: st.pending,
                 nextPromiseId := st.nextPromiseId + 1 }) := by
  have hfirst : ensureAudioLoaded false steps i st =
      (EnsureResult.started st.nextPromiseId,
       { st with upstreamLog := st.upstreamLog ++ [speechText step],
                 pending := (getAudioKey step, st.nextPromiseId) :: st.pending,
                 nextPromiseId := st.nextPromiseId + 1 }) := by
    simp [ensureAudioLoaded, hstep, hcache, hpend]
  have hrest : ∀ (l : List Nat),
      (∀ j ∈ l, ∃ s, steps[j]? = some s ∧ getAudioKey s = getAudioKey step) →
      ensureSeq false steps l
        { st with upstreamLog := st.upstreamLog ++ [speechText step],
                  pending := (getAudioKey step, st.nextPromiseId) :: st.pending,
                  nextPromiseId := st.nextPromiseId + 1 } =
        (l.map (fun _ => EnsureResult.joined st.nextPromiseId),
         { st with upstreamLog := st.upstreamLog ++ [speechText step],
                   pending := (getAudioKey step, st.nextPromiseId) :: st.pending,
                   nextPromiseId := st.nextPromiseId + 1 }) := by
    intro l
    induction l with
    | nil => intro _; simp [ensureSeq]
    | cons j rest ih =>
        intro hl
        obtain ⟨s, hs, hks⟩ := hl j (List.mem_cons_self j rest)
        have hj := ensureAudioLoaded_joined steps j s
          { st with upstreamLog := st.upstreamLog ++ [speechText step],
                    pending := (getAudioKey step, st.nextPromiseId) :: st.pending,
                    nextPromiseId := st.nextPromiseId + 1 }
          (getAudioKey step) st.nextPromiseId hs hks hcache (by simp [mapGet])
        simp only [ensureSeq, hj]
        rw [ih (fun a ha => hl a (List.mem_cons_of_mem j ha))]
        simp
  simp only [ensureSeq, hfirst]
  rw [hrest idxs hidxs]

theorem concurrent_ensure_issues_single_upstream_call_witness :
    ensureSeq false [{ title := "T", description := "D", code := "c" }] [0, 0, 0]
        { cache := [], pending := [], quotaExceeded := false, upstreamLog := [], nextPromiseId := 0 } =
      ([EnsureResult.started 0, EnsureResult.joined 0, EnsureResult.joined 0],
       { cache := [], pending := [("T|D", 0)], quotaExceeded := false,
         upstreamLog := ["T. D"], nextPromiseId := 1 }) := by
  have h := concurrent_ensure_issues_single_upstream_call
    [{ title := "T", description := "D", code := "c" }] 0
    { title := "T", description := "D", code := "c" }
    { cache := [], pending := [], quotaExceeded := false, upstreamLog := [], nextPromiseId := 0 }
    [0, 0] rfl rfl rfl
    (by intro j hj; exact ⟨{ title := "T", description := "D", code := "c" },
          by simp at hj; simp [hj], rfl⟩)
  exact h.trans (by decide)

/-- Claim C6: the audio cache identity is content derived, not position
derived.  For two steps whose trimmed title and trimmed description
agree, `ensureAudioLoaded` computes the same NarrationKey whatever the
code fields and the positions in the two step arrays, and when that key
is cached both calls return the very same cache entry without touching
the state. -/
theorem equal_trimmed_text_shares_audio_cache_entry
    (s1 s2 : SketchStep) (stepsA stepsB : List SketchStep) (i j : Nat)
    (st : AudioState) (b : AudioBuffer)
    (h1 : jsTrim s1.title = jsTrim s2.title)
    (h2 : jsTrim s1.description = jsTrim s2.description)
    (hA : stepsA[i]? = some s1) (hB : stepsB[j]? = some s2)
    (hc : mapGet st.cache (getAudioKey s1) = some b) :
    getAudioKey s1 = getAudioKey s2 ∧
    ensureAudioLoaded false stepsA i st = (EnsureResult.cached b, st) ∧
    ensureAudioLoaded false stepsB j st = (EnsureResult.cached b, st) := by
  have hkey : getAudioKey s1 = getAudioKey s2 := by
    simp [getAudioKey, h1, h2]
  refine ⟨hkey, ?_, ?_⟩
  · simp [ensureAudioLoaded, hA, hc]
  · simp [ensureAudioLoaded, hB, ← hkey, hc]

theorem equal_trimmed_text_shares_audio_cache_entry_witness :
    getAudioKey { title := " T ", description := "D", code := "code1" } =
      getAudioKey { title := "T", description := " D ", code := "code2" } ∧
    ensureAudioLoaded false
        [{ title := " T ", description := "D", code := "code1" }] 0
        { cache := [("T|D", { duration := 7 })], pending := [], quotaExceeded := false,
          upstreamLog := [], nextPromiseId := 0 } =
      (EnsureResult.cached { duration := 7 },
       { cache := [("T|D", { duration := 7 })], pending := [], quotaExceeded := false,
         upstreamLog := [], nextPromiseId := 0 }) :=
  ⟨(equal_trimmed_text_shares_audio_cache_entry
      { title := " T ", description := "D", code := "code1" }
      { title := "T", description := " D ", code := "code2" }
      [{ title := " T ", description := "D", code := "code1" }]
      [{ title := "other", description := "x", code := "y" },
       { title := "T", description := " D ", code := "code2" }] 0 1
      { cache := [("T|D", { duration := 7 })], pending := [], quotaExceeded := false,
        upstreamLog := [], nextPromiseId := 0 }
      { duration := 7 } (by decide) (by decide) rfl rfl (by decide)).1,
   (equal_trimmed_text_shares_audio_cache_entry
      { title := " T ", description := "D", code := "code1" }
      { title := "T", description := " D ", code := "code2" }
      [{ title := " T ", description := "D", code := "code1" }]
      [{ title := "other", description := "x", code := "y" },
       { title := "T", description := " D ", code := "code2" }] 0 1
      { cache := [("T|D", { duration := 7 })], pending := [], quotaExceeded := false,
        upstreamLog := [], nextPromiseId := 0 }
      { duration := 7 } (by decide) (by decide) rfl rfl (by decide)).2.1⟩

/-! ## Narration playback and its staleness guard (`playAudioForStep`) -/

/-- The interactive narration playback state of the `App` component:
the active `AudioBufferSourceNode` (by id), the `isSpeaking` and
`isLoadingAudio` flags, and a log of every source started (step index
and buffer), plus a fresh source id counter. -/
structure PlaybackState where
  activeSource : Option Nat
  isSpeaking : Bool
  isLoadingAudio : Bool
  startedLog : List (Nat × AudioBuffer)
  nextSourceId : Nat
deriving DecidableEq, Repr

/-- The continuation of `playAudioForStep` after
`await ensureAudioLoaded(index)` resolves with `buffer`.  The source
first compares `index` against `currentStepRef.current` (kept in sync
with the displayed step): if the user navigated away while the audio was
loading, the function returns at once, starting nothing and changing
nothing; otherwise it clears the loading flag, creates a buffer source,
starts it and records it as the active source. -/
def playAudioResume (index currentStep : Nat) (buffer : AudioBuffer)
    (ps : PlaybackState) : PlaybackState :=
  if ¬ index = currentStep then ps
  else
    { ps with isLoadingAudio := false,
              activeSource := some ps.nextSourceId,
              isSpeaking := true,
              startedLog := ps.startedLog ++ [(index, buffer)],
              nextSourceId := ps.nextSourceId + 1 }

/-- Claim C8: when the audio buffer for step `index` resolves while the
displayed step is no longer `index`, no audio is started and the result
is discarded silently — the playback state is exactly as before (no new
source, no speaking flag, nothing logged) — while the buffer settled by
the load stays in the audio cache for later reuse. -/
theorem stale_audio_load_does_not_start_playback
    (index currentStep : Nat) (buffer : AudioBuffer)
    (ps : PlaybackState) (st : AudioState) (key : String)
    (h : ¬ index = currentStep) :
    playAudioResume index currentStep buffer ps = ps ∧
    mapGet (settleSynthesis key (SynthOutcome.ok buffer) st).cache key = some buffer := by
  constructor
  · simp [playAudioResume, h]
  · simp [settleSynthesis, mapGet]

theorem stale_audio_load_does_not_start_playback_witness :
    playAudioResume 1 2 { duration := 9 }
        { activeSource := none, isSpeaking := false, isLoadingAudio := true,
          startedLog := [], nextSourceId := 0 } =
      { activeSource := none, isSpeaking := false, isLoadingAudio := true,
        startedLog := [], nextSourceId := 0 } ∧
    mapGet (settleSynthesis "k" (SynthOutcome.ok { duration := 9 })
        { cache := [], pending := [("k", 0)], quotaExceeded := false,
          upstreamLog := ["t"], nextPromiseId := 1 }).cache "k" = some { duration := 9 } :=
  stale_audio_load_does_not_start_playback 1 2 { duration := 9 }
    { activeSource := none, isSpeaking := false, isLoadingAudio := true,
      startedLog := [], nextSourceId := 0 }
    { cache := [], pending := [("k", 0)], quotaExceeded := false,
      upstreamLog := ["t"], nextPromiseId := 1 } "k" (by decide)

/-! ## Export orchestrator (`handleExportVideo`) -/

/-- One iteration of the audio preparation loop of `handleExportVideo`:
skip the step when its key is already cached; otherwise await
`ensureAudioLoaded(i)` — the synthesis for step `i` runs to completion
before the loop advances, and its failure is caught by the surrounding
try/catch, which only warns and continues.  `quotaAtCapture` is the
`quotaExceeded` value captured by the `ensureAudioLoaded` closure the
export holds for its whole run. -/
def exportPrepStep (quotaAtCapture : Bool) (steps : List SketchStep)
    (synth : Nat → SynthOutcome) (st : AudioState) (i : Nat) : AudioState :=
  match steps[i]? with
  | none => st
  | some step =>
      let key := getAudioKey step
      if (mapGet st.cache key).isSome then st
      else
        match ensureAudioLoaded quotaAtCapture steps i st with
        | (EnsureResult.started _, st1) => settleSynthesis key (synth i) st1
        | (EnsureResult.joined _, st1) => settleSynthesis key (synth i) st1
        | (_, st1) => st1

/-- The full audio preparation loop: `for i in 0..steps.length`. -/
def exportPrep (quotaAtCapture : Bool) (steps : List SketchStep)
    (synth : Nat → SynthOutcome) (st : AudioState) : AudioState :=
  (List.range steps.length).foldl (exportPrepStep quotaAtCapture steps synth) st

/-- The observable events of the export playback chain, each with the
time (in ms from the start of the chain) at which it happens. -/
inductive ExportEvent where
  | setStep (i : Nat) (t : Nat)
  | replay (i : Nat) (t : Nat)
  | audioSegment (i : Nat) (startT endT : Nat)
  | fallbackHold (i : Nat) (startT endT : Nat)
  | stopRecorder (t : Nat)
deriving DecidableEq, Repr

/-- The `playExportStep` recursion of `handleExportVideo`, unfolded over
the remaining steps, with `i` the index of the head step and `t` the
time at which `playExportStep(i)` runs.  Per step: set it current, then
after the 100ms settle delay replay the canvas and look the narration up
in the cache; with a buffer, start the source into the capture sink — it
ends after the buffer duration, and a further 1000ms pause precedes the
next step; with no buffer, hold for the fixed 5000ms fallback and
advance.  Past the last step the recorder is stopped after a trailing
1000ms. -/
def playExportSteps (lookup : String → Option AudioBuffer) :
    Nat → List SketchStep → Nat → List ExportEvent
  | _, [], t => [ExportEvent.stopRecorder (t + 1000)]
  | i, s :: rest, t =>
      match lookup (getAudioKey s) with
      | some b =>
          ExportEvent.setStep i t :: ExportEvent.replay i (t + 100) ::
            ExportEvent.audioSegment i (t + 100) (t + 100 + b.duration) ::
            playExportSteps lookup (i + 1) rest (t + 100 + b.duration + 1000)
      | none =>
          ExportEvent.setStep i t :: ExportEvent.replay i (t + 100) ::
            ExportEvent.fallbackHold i (t + 100) (t + 100 + 5000) ::
            playExportSteps lookup (i + 1) rest (t + 100 + 5000)

/-- The narration segments of an export run: for each one the step index
and the interval during which its source node is connected to the
capture sink. -/
def audioSegments (evs : List ExportEvent) : List (Nat × Nat × Nat) :=
  evs.filterMap (fun e =>
    match e with
    | ExportEvent.audioSegment i s t => some (i, s, t)
    | _ => none)

/-- The indices of the steps whose narration is cached, in input order,
starting the count at `i`. -/
def audioIdx (lookup : String → Option AudioBuffer) :
    Nat → List SketchStep → List Nat
  | _, [] => []
  | i, s :: rest =>
      if (lookup (getAudioKey s)).isSome then i :: audioIdx lookup (i + 1) rest
      else audioIdx lookup (i + 1) rest

theorem audioSegments_cons (e : ExportEvent) (evs : List ExportEvent) :
    audioSegments (e :: evs) =
      (match e with
       | ExportEvent.audioSegment i s t => [(i, s, t)]
       | _ => []) ++ audioSegments evs := by
  cases e <;> simp [audioSegments]

theorem audioSegments_map_fst (lookup : String → Option AudioBuffer) :
    ∀ (l : List SketchStep) (i t : Nat),
      (audioSegments (playExportSteps lookup i l t)).map Prod.fst = audioIdx lookup i l := by
  intro l
  induction l with
  | nil => intro i t; simp [playExportSteps, audioSegments, audioIdx]
  | cons s rest ih =>
      intro i t
      cases hb : lookup (getAudioKey s) with
      | none => simp [playExportSteps, audioSegments_cons, audioIdx, hb, ih]
      | some b => simp [playExportSteps, audioSegments_cons, audioIdx, hb, ih]

theorem audioSegments_start_ge (lookup : String → Option AudioBuffer) :
    ∀ (l : List SketchStep) (i t : Nat) (seg : Nat × Nat × Nat),
      seg ∈ audioSegments (playExportSteps lookup i l t) → t + 100 ≤ seg.2.1 := by
  intro l
  induction l with
  | nil => intro i t seg h; simp [playExportSteps, audioSegments] at h
  | cons s rest ih =>
      intro i t seg h
      cases hb : lookup (getAudioKey s) with
      | none =>
          simp [playExportSteps, audioSegments_cons, hb] at h
          have := ih (i + 1) (t + 100 + 5000) seg h
          omega
      | some b =>
          simp [playExportSteps, audioSegments_cons, hb] at h
          rcases h with rfl | h
          · simp
          · have := ih (i + 1) (t + 100 + b.duration + 1000) seg h
            omega

theorem audioSegments_idx_ge (lookup : String → Option AudioBuffer) :
    ∀ (l : List SketchStep) (i t : Nat) (seg : Nat × Nat × Nat),
      seg ∈ audioSegments (playExportSteps lookup i l t) → i ≤ seg.1 := by
  intro l
  induction l with
  | nil => intro i t seg h; simp [playExportSteps, audioSegments] at h
  | cons s rest ih =>
      intro i t seg h
      cases hb : lookup (getAudioKey s) with
      | none =>
          simp [playExportSteps, audioSegments_cons, hb] at h
          have := ih (i + 1) (t + 100 + 5000) seg h
          omega
      | some b =>
          simp [playExportSteps, audioSegments_cons, hb] at h
          rcases h with rfl | h
          · simp
          · have := ih (i + 1) (t + 100 + b.duration + 1000) seg h
            omega

/-- Claim C9: an export session walks the steps strictly sequentially.
The narration segments appear exactly in input order (their indices are
the cached-step indices in increasing order), and consecutive segments
never overlap at the capture sink: each next source starts only after
the previous source has ended (at least the 1000ms pause plus the 100ms
settle later — and any fallback holds for skipped steps only push it
further). -/
theorem export_audio_segments_sequential_no_overlap
    (lookup : String → Option AudioBuffer) (steps : List SketchStep) :
    (audioSegments (playExportSteps lookup 0 steps 0)).map Prod.fst = audioIdx lookup 0 steps ∧
    List.Chain' (fun a b : Nat × Nat × Nat => a.1 < b.1 ∧ a.2.2 + 1100 ≤ b.2.1)
      (audioSegments (playExportSteps lookup 0 steps 0)) := by
  refine ⟨audioSegments_map_fst lookup steps 0 0, ?_⟩
  suffices h : ∀ (l : List SketchStep) (i t : Nat),
      List.Chain' (fun a b : Nat × Nat × Nat => a.1 < b.1 ∧ a.2.2 + 1100 ≤ b.2.1)
        (audioSegments (playExportSteps lookup i l t)) from h steps 0 0
  intro l
  induction l with
  | nil => intro i t; simp [playExportSteps, audioSegments]
  | cons s rest ih =>
      intro i t
      cases hb : lookup (getAudioKey s) with
      | none =>
          simpa [playExportSteps, audioSegments_cons, hb] using ih (i + 1) (t + 100 + 5000)
      | some b =>
          have hchain := ih (i + 1) (t + 100 + b.duration + 1000)
          have hhead : ∀ seg ∈ audioSegments
              (playExportSteps lookup (i + 1) rest (t + 100 + b.duration + 1000)),
              (i, t + 100, t + 100 + b.duration).1 < seg.1 ∧
              (i, t + 100, t + 100 + b.duration).2.2 + 1100 ≤ seg.2.1 := by
            intro seg hseg
            have h1 := audioSegments_idx_ge lookup rest (i + 1) (t + 100 + b.duration + 1000) seg hseg
            have h2 := audioSegments_start_ge lookup rest (i + 1) (t + 100 + b.duration + 1000) seg hseg
            constructor
            · simpa using Nat.lt_of_lt_of_le (Nat.lt_succ_self i) h1
            · simp only []
              omega
          rw [show playExportSteps lookup i (s :: rest) t =
                ExportEvent.setStep i t :: ExportEvent.replay i (t + 100) ::
                  ExportEvent.audioSegment i (t + 100) (t + 100 + b.duration) ::
                  playExportSteps lookup (i + 1) rest (t + 100 + b.duration + 1000) by
              simp [playExportSteps, hb],
             audioSegments_cons, audioSegments_cons, audioSegments_cons]
          simp only [List.nil_append]
          exact List.chain'_cons'.2 ⟨fun seg hseg => hhead seg (List.mem_of_mem_head? hseg), hchain⟩

theorem export_audio_segments_sequential_no_overlap_witness :
    (audioSegments (playExportSteps (fun _ => some { duration := 500 }) 0
        [{ title := "A", description := "a", code := "x" },
         { title := "B", description := "b", code := "y" }] 0)).map Prod.fst =
      audioIdx (fun _ => some { duration := 500 }) 0
        [{ title := "A", description := "a", code := "x" },
         { title := "B", description := "b", code := "y" }] ∧
    List.Chain' (fun a b : Nat × Nat × Nat => a.1 < b.1 ∧ a.2.2 + 1100 ≤ b.2.1)
      (audioSegments (playExportSteps (fun _ => some { duration := 500 }) 0
        [{ title := "A", description := "a", code := "x" },
         { title := "B", description := "b", code := "y" }] 0)) :=
  export_audio_segments_sequential_no_overlap (fun _ => some { duration := 500 })
    [{ title := "A", description := "a", code := "x" },
     { title := "B", description := "b", code := "y" }]

/-- The fallback holds of an export run: step index and hold interval
for the steps recorded without narration. -/
def fallbackHolds (evs : List ExportEvent) : List (Nat × Nat × Nat) :=
  evs.filterMap (fun e =>
    match e with
    | ExportEvent.fallbackHold i s t => some (i, s, t)
    | _ => none)

/-- The step indices replayed during an export run, in order. -/
def replayIdx (evs : List ExportEvent) : List Nat :=
  evs.filterMap (fun e =>
    match e with
    | ExportEvent.replay i _ => some i
    | _ => none)

theorem exportPrepStep_uncached_ok (steps : List SketchStep) (synth : Nat → SynthOutcome)
    (st : AudioState) (i : Nat) (s : SketchStep) (b : AudioBuffer)
    (hstep : steps[i]? = some s)
    (hcache : mapGet st.cache (getAudioKey s) = none)
    (hpend : st.pending = [])
    (hsynth : synth i = SynthOutcome.ok b) :
    exportPrepStep false steps synth st i =
      { st with cache := (getAudioKey s, b) :: st.cache,
                pending := [],
                upstreamLog := st.upstreamLog ++ [speechText s],
                nextPromiseId := st.nextPromiseId + 1 } := by
  simp [exportPrepStep, hstep, hcache, ensureAudioLoaded, hpend, mapGet,
        settleSynthesis, hsynth, mapDelete]

theorem exportPrepStep_uncached_429 (steps : List SketchStep) (synth : Nat → SynthOutcome)
    (st : AudioState) (i : Nat) (s : SketchStep)
    (hstep : steps[i]? = some s)
    (hcache : mapGet st.cache (getAudioKey s) = none)
    (hpend : st.pending = [])
    (hsynth : synth i = SynthOutcome.fail429) :
    exportPrepStep false steps synth st i =
      { st with pending := [],
                quotaExceeded := true,
                upstreamLog := st.upstreamLog ++ [speechText s],
                nextPromiseId := st.nextPromiseId + 1 } := by
  simp [exportPrepStep, hstep, hcache, ensureAudioLoaded, hpend, mapGet,
        settleSynthesis, hsynth, mapDelete]

/-- Claim C7: export over four steps where the synthesis service rate
limits only the narration of the second step (index 1).  The preparation
loop runs to completion instead of aborting, all four synthesis calls
are attempted — the `ensureAudioLoaded` closure the export holds was
created while `quotaExceeded` was still false, so the 429 does not stop
the later steps — steps 1, 3 and 4 end up cached with their narration
while step 2 stays uncached, the sticky quota flag is set for future
renders, and the playback chain replays every step, records narration
segments exactly for steps 1, 3, 4, and records step 2 with only its
replay plus one fallback hold of the fixed 5000ms duration. -/
theorem export_rate_limit_on_step2_nonfatal
    (sA sB sC sD : SketchStep) (bA bC bD : AudioBuffer)
    (st0 : AudioState) (synth : Nat → SynthOutcome)
    (hpend : st0.pending = [])
    (hcA : mapGet st0.cache (getAudioKey sA) = none)
    (hcB : mapGet st0.cache (getAudioKey sB) = none)
    (hcC : mapGet st0.cache (getAudioKey sC) = none)
    (hcD : mapGet st0.cache (getAudioKey sD) = none)
    (hBA : getAudioKey sB ≠ getAudioKey sA)
    (hCA : getAudioKey sC ≠ getAudioKey sA)
    (hCB : getAudioKey sC ≠ getAudioKey sB)
    (hDA : getAudioKey sD ≠ getAudioKey sA)
    (hDB : getAudioKey sD ≠ getAudioKey sB)
    (hDC : getAudioKey sD ≠ getAudioKey sC)
    (h0 : synth 0 = SynthOutcome.ok bA)
    (h1 : synth 1 = SynthOutcome.fail429)
    (h2 : synth 2 = SynthOutcome.ok bC)
    (h3 : synth 3 = SynthOutcome.ok bD) :
    mapGet (exportPrep false [sA, sB, sC, sD] synth st0).cache (getAudioKey sA) = some bA ∧
    mapGet (exportPrep false [sA, sB, sC, sD] synth st0).cache (getAudioKey sB) = none ∧
    mapGet (exportPrep false [sA, sB, sC, sD] synth st0).cache (getAudioKey sC) = some bC ∧
    mapGet (exportPrep false [sA, sB, sC, sD] synth st0).cache (getAudioKey sD) = some bD ∧
    (exportPrep false [sA, sB, sC, sD] synth st0).upstreamLog =
      st0.upstreamLog ++ [speechText sA, speechText sB, speechText sC, speechText sD] ∧
    (exportPrep false [sA, sB, sC, sD] synth st0).quotaExceeded = true ∧
    audioIdx (mapGet (exportPrep false [sA, sB, sC, sD] synth st0).cache) 0 [sA, sB, sC, sD]
      = [0, 2, 3] ∧
    replayIdx (playExportSteps (mapGet (exportPrep false [sA, sB, sC, sD] synth st0).cache)
        0 [sA, sB, sC, sD] 0) = [0, 1, 2, 3] ∧
    (fallbackHolds (playExportSteps (mapGet (exportPrep false [sA, sB, sC, sD] synth st0).cache)
        0 [sA, sB, sC, sD] 0)).map (fun x => (x.1, x.2.2 - x.2.1)) = [(1, 5000)] := by
  have e0 := exportPrepStep_uncached_ok [sA, sB, sC, sD] synth st0 0 sA bA rfl hcA hpend h0
  have e1 := exportPrepStep_uncached_429 [sA, sB, sC, sD] synth
    { st0 with cache := (getAudioKey sA, bA) :: st0.cache,
               pending := [],
               upstreamLog := st0.upstreamLog ++ [speechText sA],
               nextPromiseId := st0.nextPromiseId + 1 } 1 sB rfl
    (by simp [mapGet, hBA, hcB]) rfl h1
  have e2 := exportPrepStep_uncached_ok [sA, sB, sC, sD] synth
    { st0 with cache := (getAudioKey sA, bA) :: st0.cache,
               pending := [],
               quotaExceeded := true,
               upstreamLog := st0.upstreamLog ++ [speechText sA] ++ [speechText sB],
               nextPromiseId := st0.nextPromiseId + 1 + 1 } 2 sC bC rfl
    (by simp [mapGet, hCA, hcC]) rfl h2
  have e3 := exportPrepStep_uncached_ok [sA, sB, sC, sD] synth
    { st0 with cache := (getAudioKey sC, bC) :: (getAudioKey sA, bA) :: st0.cache,
               pending := [],
               quotaExceeded := true,
               upstreamLog := st0.upstreamLog ++ [speechText sA] ++ [speechText sB] ++ [speechText sC],
               nextPromiseId := st0.nextPromiseId + 1 + 1 + 1 } 3 sD bD rfl
    (by simp [mapGet, hDC, hDA, hcD]) rfl h3
  have hfold : exportPrep false [sA, sB, sC, sD] synth st0 =
      { st0 with cache := (getAudioKey sD, bD) :: (getAudioKey sC, bC) ::
                   (getAudioKey sA, bA) :: st0.cache,
                 pending := [],
                 quotaExceeded := true,
                 upstreamLog := st0.upstreamLog ++ [speechText sA] ++ [speechText sB]
                   ++ [speechText sC] ++ [speechText sD],
                 nextPromiseId := st0.nextPromiseId + 1 + 1 + 1 + 1 } := by
    have hr : List.range ([sA, sB, sC, sD] : List SketchStep).length = [0, 1, 2, 3] := rfl
    simp only [exportPrep, hr, List.foldl_cons, List.foldl_nil]
    rw [e0, e1, e2, e3]
  rw [hfold]
  have lA : mapGet ((getAudioKey sD, bD) :: (getAudioKey sC, bC) ::
      (getAudioKey sA, bA) :: st0.cache) (getAudioKey sA) = some bA := by
    simp [mapGet, hDA.symm, hCA.symm]
  have lB : mapGet ((getAudioKey sD, bD) :: (getAudioKey sC, bC) ::
      (getAudioKey sA, bA) :: st0.cache) (getAudioKey sB) = none := by
    simp [mapGet, hDB.symm, hCB.symm, hBA, hcB]
  have lC : mapGet ((getAudioKey sD, bD) :: (getAudioKey sC, bC) ::
      (getAudioKey sA, bA) :: st0.cache) (getAudioKey sC) = some bC := by
    simp [mapGet, hDC.symm]
  have lD : mapGet ((getAudioKey sD, bD) :: (getAudioKey sC, bC) ::
      (getAudioKey sA, bA) :: st0.cache) (getAudioKey sD) = some bD := by
    simp [mapGet]
  refine ⟨lA, lB, lC, lD, by simp, rfl, ?_, ?_, ?_⟩
  · simp [audioIdx, lA, lB, lC, lD]
  · simp [playExportSteps, lA, lB, lC, lD, replayIdx]
  · simp [playExportSteps, lA, lB, lC, lD, fallbackHolds]

theorem export_rate_limit_on_step2_nonfatal_witness :
    mapGet (exportPrep false
        [{ title := "A", description := "a", code := "1" },
         { title := "B", description := "b", code := "2" },
         { title := "C", description := "c", code := "3" },
         { title := "D", description := "d", code := "4" }]
        (fun n => if n = 0 then SynthOutcome.ok { duration := 3000 }
                  else if n = 1 then SynthOutcome.fail429
                  else SynthOutcome.ok { duration := 2000 })
        { cache := [], pending := [], quotaExceeded := false,
          upstreamLog := [], nextPromiseId := 0 }).cache
      (getAudioKey { title := "B", description := "b", code := "2" }) = none ∧
    (exportPrep false
        [{ title := "A", description := "a", code := "1" },
         { title := "B", description := "b", code := "2" },
         { title := "C", description := "c", code := "3" },
         { title := "D", description := "d", code := "4" }]
        (fun n => if n = 0 then SynthOutcome.ok { duration := 3000 }
                  else if n = 1 then SynthOutcome.fail429
                  else SynthOutcome.ok { duration := 2000 })
        { cache := [], pending := [], quotaExceeded := false,
          upstreamLog := [], nextPromiseId := 0 }).quotaExceeded = true :=
  ⟨(export_rate_limit_on_step2_nonfatal
      { title := "A", description := "a", code := "1" }
      { title := "B", description := "b", code := "2" }
      { title := "C", description := "c", code := "3" }
      { title := "D", description := "d", code := "4" }
      { duration := 3000 } { duration := 2000 } { duration := 2000 }
      { cache := [], pending := [], quotaExceeded := false,
        upstreamLog := [], nextPromiseId := 0 }
      (fun n => if n = 0 then SynthOutcome.ok { duration := 3000 }
                else if n = 1 then SynthOutcome.fail429
                else SynthOutcome.ok { duration := 2000 })
      rfl rfl rfl rfl rfl (by decide) (by decide) (by decide) (by decide) (by decide)
      (by decide) rfl rfl rfl rfl).2.1,
   (export_rate_limit_on_step2_nonfatal
      { title := "A", description := "a", code := "1" }
      { title := "B", description := "b", code := "2" }
      { title := "C", description := "c", code := "3" }
      { title := "D", description := "d", code := "4" }
      { duration := 3000 } { duration := 2000 } { duration := 2000 }
      { cache := [], pending := [], quotaExceeded := false,
        upstreamLog := [], nextPromiseId := 0 }
      (fun n => if n = 0 then SynthOutcome.ok { duration := 3000 }
                else if n = 1 then SynthOutcome.fail429
                else SynthOutcome.ok { duration := 2000 })
      rfl rfl rfl rfl rfl (by decide) (by decide) (by decide) (by decide) (by decide)
      (by decide) rfl rfl rfl rfl).2.2.2.2.2.1⟩

/-! ## History storage (`services/storageService.ts`) -/

/-- One stored history record (`HistoryItem` of `types.ts`). -/
structure HistoryItem where
  id : String
  query : String
  steps : List SketchStep
  timestamp : Nat
deriving DecidableEq, Repr

/-- The environment the storage module runs against: the current
contents of `localStorage` under the history key, failure injection for
the fallible platform primitives (`localStorage.getItem` can throw, for
example with storage disabled; `localStorage.setItem` can throw, for
example on quota), the behavior of `JSON.parse` on the stored text
(`none` means the parse throws, for example on malformed contents),
`JSON.stringify`, and `Date.now()`. -/
structure StorageEnv where
  stored : Option String
  getThrows : Bool
  setThrows : Bool
  parse : String → Option (List HistoryItem)
  stringify : List HistoryItem → String
  now : Nat

/-- `localStorage.getItem(STORAGE_KEY)`; `Except.error` is a throw. -/
def getItemE (env : StorageEnv) : Except Unit (Option String) :=
  if env.getThrows then Except.error () else Except.ok env.stored

/-- `JSON.parse(stored)`; `Except.error` is a throw. -/
def parseE (env : StorageEnv) (s : String) : Except Unit (List HistoryItem) :=
  match env.parse s with
  | some l => Except.ok l
  | none => Except.error ()

/-- `localStorage.setItem(STORAGE_KEY, s)`; `Except.error` is a throw,
and nothing is stored in that case. -/
def setItemE (env : StorageEnv) (s : String) : Except Unit StorageEnv :=
  if env.setThrows then Except.error () else Except.ok { env with stored := some s }

/-- The try-block of `getHistory`: read the stored text and parse it,
returning the empty list when nothing is stored. -/
def getHistoryBody (env : StorageEnv) : Except Unit (List HistoryItem) :=
  match getItemE env with
  | Except.error e => Except.error e
  | Except.ok none => Except.ok []
  | Except.ok (some s) => parseE env s

/-- `getHistory`: the try-block with its catch, which logs and returns
the empty list. -/
def getHistory (env : StorageEnv) : List HistoryItem :=
  match getHistoryBody env with
  | Except.ok l => l
  | Except.error _ => []

/-- The new item `saveHistoryItem` builds: the id is
`Date.now().toString()` and the timestamp is `Date.now()`. -/
def mkHistoryItem (env : StorageEnv) (query : String) (steps : List SketchStep) : HistoryItem :=
  { id := toString env.now, query := query, steps := steps, timestamp := env.now }

/-- The try-block of `saveHistoryItem`: read the history through the
exported `getHistory` (which catches its own failures), drop any item
with the same query up to letter case, prepend the new item, keep the
first 20, write the result back, and return it. -/
def saveHistoryItemBody (env : StorageEnv) (query : String) (steps : List SketchStep) :
    Except Unit (List HistoryItem × StorageEnv) :=
  let history := getHistory env
  let filteredHistory := history.filter (fun h => ¬ h.query.toLower = query.toLower)
  let newHistory := (mkHistoryItem env query steps :: filteredHistory).take 20
  match setItemE env (env.stringify newHistory) with
  | Except.error e => Except.error e
  | Except.ok env1 => Except.ok (newHistory, env1)

/-- `saveHistoryItem`: the try-block with its catch, which logs and
returns the empty list (the environment is unchanged on a throw). -/
def saveHistoryItem (env : StorageEnv) (query : String) (steps : List SketchStep) :
    List HistoryItem × StorageEnv :=
  match saveHistoryItemBody env query steps with
  | Except.ok r => r
  | Except.error _ => ([], env)

/-- The try-block of `deleteHistoryItem`: read the history through the
exported `getHistory`, drop the item with the given id, write the result
back, and return it. -/
def deleteHistoryItemBody (env : StorageEnv) (id : String) :
    Except Unit (List HistoryItem × StorageEnv) :=
  let history := getHistory env
  let newHistory := history.filter (fun item => ¬ item.id = id)
  match setItemE env (env.stringify newHistory) with
  | Except.error e => Except.error e
  | Except.ok env1 => Except.ok (newHistory, env1)

/-- `deleteHistoryItem`: the try-block with its catch, which logs and
returns the empty list. -/
def deleteHistoryItem (env : StorageEnv) (id : String) : List HistoryItem × StorageEnv :=
  match deleteHistoryItemBody env id with
  | Except.ok r => r
  | Except.error _ => ([], env)

/-- Claim C10 counterexample: an environment in which the storage read
throws but the write succeeds.  `saveHistoryItem` does not return the
empty list there: the inner `getHistory` swallows the read failure and
reports an empty history, so the save proceeds and returns the new
one-item list.  The claim, which demands the empty list whenever the
underlying storage read, write, or parse fails, is false at this
input. -/
theorem save_returns_new_item_when_read_fails :
    (saveHistoryItem
        { stored := some "garbage", getThrows := true, setThrows := false,
          parse := fun _ => none, stringify := fun _ => "", now := 0 }
        "q" []).1 =
      [{ id := "0", query := "q", steps := [], timestamp := 0 }] ∧
    ¬ (saveHistoryItem
        { stored := some "garbage", getThrows := true, setThrows := false,
          parse := fun _ => none, stringify := fun _ => "", now := 0 }
        "q" []).1 = [] := by
  constructor
  · rfl
  · intro h
    have := congrArg List.length h
    simp [saveHistoryItem, saveHistoryItemBody, setItemE, getHistory, getHistoryBody,
          getItemE, mkHistoryItem] at this

/-- Claim C10, amended: the history operations never propagate an
exception.  `getHistory` returns the empty list when the read throws,
when nothing is stored, and when the parse throws; `saveHistoryItem` and
`deleteHistoryItem` return the empty list when the storage write throws;
`deleteHistoryItem` also returns the empty list when the read throws;
but `saveHistoryItem` under a failing read with a working write swallows
the read failure (the inner `getHistory` reports an empty history) and
returns the new one-item list rather than the empty list. -/
theorem history_operations_swallow_storage_failures
    (env : StorageEnv) (query id : String) (steps : List SketchStep) :
    (env.getThrows = true → getHistory env = []) ∧
    (env.stored = none → env.getThrows = false → getHistory env = []) ∧
    (∀ s, env.stored = some s → env.getThrows = false → env.parse s = none →
       getHistory env = []) ∧
    (env.setThrows = true →
       saveHistoryItem env query steps = ([], env) ∧
       deleteHistoryItem env id = ([], env)) ∧
    (env.getThrows = true → env.setThrows = false →
       (saveHistoryItem env query steps).1 = [mkHistoryItem env query steps] ∧
       (deleteHistoryItem env id).1 = []) := by
  refine ⟨?_, ?_, ?_, ?_, ?_⟩
  · intro hg
    simp [getHistory, getHistoryBody, getItemE, hg]
  · intro hs hg
    simp [getHistory, getHistoryBody, getItemE, hg, hs]
  · intro s hs hg hp
    simp [getHistory, getHistoryBody, getItemE, parseE, hg, hs, hp]
  · intro hset
    constructor
    · simp [saveHistoryItem, saveHistoryItemBody, setItemE, hset]
    · simp [deleteHistoryItem, deleteHistoryItemBody, setItemE, hset]
  · intro hg hset
    have hist : getHistory env = [] := by
      simp [getHistory, getHistoryBody, getItemE, hg]
    constructor
    · simp [saveHistoryItem, saveHistoryItemBody, setItemE, hset, hist]
    · simp [deleteHistoryItem, deleteHistoryItemBody, setItemE, hset, hist]

theorem history_operations_swallow_storage_failures_witness :
    ((true : Bool) = true →
      getHistory { stored := none, getThrows := true, setThrows := true,
                   parse := fun _ => none, stringify := fun _ => "", now := 5 } = []) ∧
    ((true : Bool) = true →
      saveHistoryItem { stored := none, getThrows := true, setThrows := true,
                        parse := fun _ => none, stringify := fun _ => "", now := 5 } "q" [] =
        ([], { stored := none, getThrows := true, setThrows := true,
               parse := fun _ => none, stringify := fun _ => "", now := 5 }) ∧
      deleteHistoryItem { stored := none, getThrows := true, setThrows := true,
                          parse := fun _ => none, stringify := fun _ => "", now := 5 } "3" =
        ([], { stored := none, getThrows := true, setThrows := true,
               parse := fun _ => none, stringify := fun _ => "", now := 5 })) :=
  ⟨(history_operations_swallow_storage_failures
      { stored := none, getThrows := true, setThrows := true,
        parse := fun _ => none, stringify := fun _ => "", now := 5 } "q" "3" []).1,
   (history_operations_swallow_storage_failures
      { stored := none, getThrows := true, setThrows := true,
        parse := fun _ => none, stringify := fun _ => "", now := 5 } "q" "3" []).2.2.2.1⟩

end AnimationBuilder
